import Mathlib

/-!
Verification of the console-process supervisor
(`src/cpp/session/SessionConsoleProcess.cpp`).

The development shallowly embeds the parts of the file that the
specification talks about: the prompt-detection heuristic of
`ConsoleProcess`, output buffering and truncation, the scheduler tick
(`onContinue`), process start, the registry of processes
(`s_procs` with `create` / `createTerminalProcess`), JSON persistence,
and the `PasswordManager` cache.

Text is modelled as `List Char`.  File storage (the per-handle log files
under the console scratch directory) is modelled as an association list
from handle to file content; the happy path of file I/O is embedded
(failures are logged-and-ignored in the source, so they never change the
returned values' shape).  Machine `int` values (`exitCode`, pty sizes,
terminal sequence numbers) are modelled as `Int`.
-/

set_option autoImplicit false

namespace ConsoleProc

/-- Text, modelled as a list of characters. -/
abbrev Str := List Char

/-- Number of newline characters in a string. -/
def countNL (s : Str) : Nat := s.countP (fun c => c == '\n')

/-- Number of lines of a string (a string with no newline is one line). -/
def numLines (s : Str) : Nat := countNL s + 1

/-- Drop the first line of a string: everything up to and including the
first newline (the whole string, if it has no newline). -/
def dropFirstLine (s : Str) : Str := (s.dropWhile (fun c => !(c == '\n'))).tail

/-- Drop the first `k` lines of a string. -/
def dropLines : Nat → Str → Str
  | 0, s => s
  | k + 1, s => dropLines k (dropFirstLine s)

/-- Modelled from the spec: `string_utils::trimLeadingLines` (core string
utilities, not under `src/`) trims an output event payload to "a trimmed
copy retaining only the last N lines (N = configured max)".  We drop all
leading lines beyond the last `maxLines` ones. -/
def trimLeadingLines (maxLines : Nat) (s : Str) : Str :=
  dropLines (numLines s - maxLines) s

/-- Modelled from the spec: `string_utils::convertLineEndings` with the
POSIX target (core string utilities, not under `src/`) normalizes line
endings to a canonical form: `"\r\n"` and a lone `"\r"` both become
`"\n"`. -/
def convertLineEndingsPosix : Str → Str
  | [] => []
  | '\r' :: '\n' :: rest => '\n' :: convertLineEndingsPosix rest
  | '\r' :: rest => '\n' :: convertLineEndingsPosix rest
  | c :: rest => c :: convertLineEndingsPosix rest

/-- `controlCharsPattern_ = "[\r\b]"` together with `regex_search`: does
the string contain a carriage return or a backspace anywhere? -/
def controlSearch (s : Str) : Bool :=
  s.any (fun c => c == '\r' || c == '\x08')

/-- `promptPattern_ = "^(.+)[\W_]( +)$"` together with `regex_match`
(whole-string match).  The string must decompose as one-or-more
non-newline characters, then one character that is not alphanumeric
(`[\W_]` is the union of non-word characters and the underscore, i.e.
everything except letters and digits), then one-or-more spaces running
to the end.  `i` ranges over the candidate positions of the separator
character. -/
def promptMatch (s : Str) : Bool :=
  (List.range s.length).any fun i =>
    decide (1 ≤ i) && decide (i + 2 ≤ s.length) &&
    !((s.getD i ' ').isAlphanum) &&
    (s.take i).all (fun c => !(c == '\n')) &&
    (s.drop (i + 1)).all (fun c => c == ' ')

/-- Last index of a `'\n'` or `'\f'` character
(`posixOutput.find_last_of("\n\f")`). -/
def findLastNLFF (s : Str) : Option Nat :=
  match s.reverse.findIdx? (fun c => c == '\n' || c == '\x0c') with
  | some j => some (s.length - 1 - j)
  | none => none

/-- One queued unit of interactive input (`ConsoleProcess::Input`, declared
in the header `SessionConsoleProcess.hpp`, which is not under `src/`): an
interrupt, or text plus an echo flag.  `Input()` (the default-constructed
"cancel" value) is `emptyInput` below; per the spec, cancellation is
signalled by an empty input, and `empty()` tests that the text is empty. -/
structure Input where
  interrupt : Bool
  text : Str
  echoInput : Bool
deriving DecidableEq

/-- The default-constructed `Input()`. -/
def Input.emptyInput : Input := ⟨false, [], false⟩

/-- Sentinel terminal sequence meaning "not a terminal tab" (a modal
console).  Modelled from the spec: the constant lives in the header, not
under `src/`. -/
def kNoTerminal : Int := 0

/-- Persisted / mutable per-session metadata (`ConsoleProcessInfo`).  The
class itself lives in `ConsoleProcessInfo.{hpp,cpp}`, not under `src/`;
its fields are modelled from the spec's data model (§3): handle, terminal
identity, `allowRestart`, caption/title, `hasChildProcs`, last exit code,
maximum output lines to echo per event, the started flag, and the
embedded output buffer used by modal consoles. -/
structure ConsoleProcessInfo where
  handle : Str
  caption : Str
  title : Str
  terminalSequence : Int
  allowRestart : Bool
  started : Bool
  hasChildProcs : Bool
  exitCode : Option Int
  maxOutputLines : Nat
  outputBuffer : Str
deriving DecidableEq

/-- Modelled from the spec: `ConsoleProcessInfo::appendToOutputBuffer`
(not under `src/`) appends output text directly to the persisted
metadata. -/
def ConsoleProcessInfo.appendToOutputBuffer (info : ConsoleProcessInfo) (s : Str) :
    ConsoleProcessInfo :=
  { info with outputBuffer := info.outputBuffer ++ s }

/-- Modelled from the spec: `ConsoleProcessInfo::bufferedOutput` (not
under `src/`) reads the embedded buffer back verbatim. -/
def ConsoleProcessInfo.bufferedOutput (info : ConsoleProcessInfo) : Str :=
  info.outputBuffer

/-- The slice of `core::system::ProcessOptions` that
`SessionConsoleProcess.cpp` reads or writes. -/
structure ProcessOptions where
  smartTerminal : Bool
  terminateChildren : Bool
  redirectStdErrToStdOut : Bool
  reportHasSubprocs : Bool
deriving DecidableEq

/-- One `ConsoleProcess`: launch description, options, metadata, and the
mutable scheduling state (`interrupt_`, `newCols_`/`newRows_`,
`childProcsSent_`, and the input queue). -/
structure ConsoleProcess where
  command : Str
  program : Str
  args : List Str
  options : ProcessOptions
  procInfo : ConsoleProcessInfo
  interrupt : Bool
  newCols : Int
  newRows : Int
  childProcsSent : Bool
  inputQueue : List Input
deriving DecidableEq

/-- `ConsoleProcess::handle()` forwards to the metadata. -/
def ConsoleProcess.handle (cp : ConsoleProcess) : Str := cp.procInfo.handle

/-- The per-handle log files in the console scratch directory, keyed by
handle (file name = handle). -/
abbrev FileSys := List (Str × Str)

/-- Content of the log file for a handle; a missing file reads as empty
(`if (!log.exists()) return ""`). -/
def fsRead : FileSys → Str → Str
  | [], _ => []
  | (k, v) :: rest, h => if k = h then v else fsRead rest h

/-- `core::appendToFile`: append to the named file, creating it if it
does not exist yet. -/
def fsAppend : FileSys → Str → Str → FileSys
  | [], h, s => [(h, s)]
  | (k, v) :: rest, h, s =>
    if k = h then (k, v ++ s) :: rest else (k, v) :: fsAppend rest h s

/-- Events enqueued toward the client
(`module_context::enqueClientEvent`). -/
inductive ClientEvent where
  | consoleProcessOutput (handle : Str) (error : Bool) (output : Str)
  | consoleProcessPrompt (handle : Str) (prompt : Str)
  | consoleProcessExit (handle : Str) (exitCode : Int)
  | terminalSubprocs (handle : Str) (subprocs : Bool)
deriving DecidableEq

/-- Calls made on `core::system::ProcessOperations` (the external process
runner's handle to the live child). -/
inductive ProcOp where
  | ptyInterrupt
  | writeToStdin (text : Str)
  | ptySetSize (cols rows : Int)
  | terminate
deriving DecidableEq

/-- `ConsoleProcess::appendToOutputBuffer(str)`: modal consoles
(terminal sequence = `kNoTerminal`) append to the embedded metadata
buffer; terminal tabs append to the handle-named log file. -/
def ConsoleProcess.appendToOutputBuffer (cp : ConsoleProcess) (fs : FileSys) (s : Str) :
    ConsoleProcess × FileSys :=
  if cp.procInfo.terminalSequence = kNoTerminal then
    ({ cp with procInfo := cp.procInfo.appendToOutputBuffer s }, fs)
  else
    (cp, fsAppend fs cp.procInfo.handle s)

/-- `ConsoleProcess::getSavedBuffer()`: read the whole handle-named log
file (a missing file or a failed read returns the empty string). -/
def ConsoleProcess.getSavedBuffer (fs : FileSys) (cp : ConsoleProcess) : Str :=
  fsRead fs cp.procInfo.handle

/-- `ConsoleProcess::bufferedOutput()`: the empty string for a smart
terminal, the embedded buffer otherwise. -/
def ConsoleProcess.bufferedOutput (cp : ConsoleProcess) : Str :=
  if cp.options.smartTerminal then [] else cp.procInfo.bufferedOutput

/-- The observable context of one running session while the driver loop
delivers callbacks: the session itself, the log-file store, the client
events enqueued so far, and the operations performed on the live
process. -/
structure World where
  cp : ConsoleProcess
  fs : FileSys
  events : List ClientEvent
  ops : List ProcOp
deriving DecidableEq

/-- The `onPrompt_` hook (`setPromptHandler`): given the prompt text it
either claims the prompt and yields the replacement `Input`
(the C++ callback returning `true`), or declines (`false`). -/
abbrev PromptHandler := Str → Option Input

/-- Copy a chunk to the session's output sink. -/
def World.appendSink (w : World) (s : Str) : World :=
  let r := w.cp.appendToOutputBuffer w.fs s
  { w with cp := r.1, fs := r.2 }

/-- `ConsoleProcess::enqueOutputEvent(output, error)`: append the full
text to the output sink, then enqueue a client event whose payload is
trimmed to the configured maximum number of lines. -/
def World.enqueOutputEvent (w : World) (output : Str) (error : Bool) : World :=
  let w1 := w.appendSink output
  { w1 with
    events := w1.events ++
      [ClientEvent.consoleProcessOutput w.cp.handle error
        (trimLeadingLines w.cp.procInfo.maxOutputLines output)] }

/-- `ConsoleProcess::handleConsolePrompt(ops, prompt)`: a custom prompt
handler, when attached and claiming the prompt, either enqueues its
replacement input (when non-empty) or terminates the process (when the
input signals cancellation).  Otherwise a prompt client event is
enqueued. -/
def World.handleConsolePrompt (handler : Option PromptHandler) (w : World) (prompt : Str) :
    World :=
  match handler with
  | some f =>
    match f prompt with
    | some input =>
      if input.text ≠ [] then
        { w with cp := { w.cp with inputQueue := w.cp.inputQueue ++ [input] } }
      else
        { w with ops := w.ops ++ [ProcOp.terminate] }
    | none =>
      { w with events := w.events ++ [ClientEvent.consoleProcessPrompt w.cp.handle prompt] }
  | none =>
    { w with events := w.events ++ [ClientEvent.consoleProcessPrompt w.cp.handle prompt] }

/-- `ConsoleProcess::maybeConsolePrompt(ops, output)`.  NOTE: the two
regex tests in the source are written as two independent `if`
statements — there is no `else` between the control-character test and
the prompt-pattern test — so a candidate containing a control character
is enqueued as output and is then still matched against the prompt
pattern. -/
def World.maybeConsolePrompt (handler : Option PromptHandler) (w : World) (output : Str) :
    World :=
  let w1 := if controlSearch output then w.enqueOutputEvent output false else w
  if !(promptMatch output) then w1.enqueOutputEvent output false
  else World.handleConsolePrompt handler w1 output

/-- `ConsoleProcess::onStdout(ops, output)`: a smart terminal forwards
the chunk directly as an output event; otherwise line endings are
normalized, a chunk ending in a newline is a complete output event, and
otherwise the trailing newline-free suffix is the prompt candidate
(everything before the last `'\n'`/`'\f'` — exclusive — is output). -/
def World.onStdout (handler : Option PromptHandler) (w : World) (output : Str) : World :=
  if w.cp.options.smartTerminal then w.enqueOutputEvent output false
  else
    let posix := convertLineEndingsPosix output
    if posix.getLast? = some '\n' then w.enqueOutputEvent posix false
    else
      match findLastNLFF posix with
      | some i =>
        World.maybeConsolePrompt handler (w.enqueOutputEvent (posix.take i) false)
          (posix.drop (i + 1))
      | none => World.maybeConsolePrompt handler w posix

/-- Result of one `onContinue` scheduler tick. -/
structure ContinueResult where
  keepRunning : Bool
  cp : ConsoleProcess
  fs : FileSys
  ops : List ProcOp
deriving DecidableEq

/-- The input-queue drain loop inside `ConsoleProcess::onContinue`: a
queued interrupt performs `ptyInterrupt` and, when echo was requested,
appends `"^C"` to the output buffer; queued text is written to stdin
and, for non-smart terminals only, echoed (or replaced with a bare
newline when echo is off).  (This embeds the POSIX build: the Windows
line-ending conversion of input text is behind `#ifdef _WIN32`.) -/
def drainInputQueue : List Input → ConsoleProcess → FileSys →
    ConsoleProcess × FileSys × List ProcOp
  | [], cp, fs => (cp, fs, [])
  | input :: rest, cp, fs =>
    if input.interrupt then
      let step := if input.echoInput then cp.appendToOutputBuffer fs ['^', 'C'] else (cp, fs)
      let next := drainInputQueue rest step.1 step.2
      (next.1, next.2.1, ProcOp.ptyInterrupt :: next.2.2)
    else
      let step :=
        if cp.options.smartTerminal then (cp, fs)
        else if input.echoInput then cp.appendToOutputBuffer fs input.text
        else cp.appendToOutputBuffer fs ['\n']
      let next := drainInputQueue rest step.1 step.2
      (next.1, next.2.1, ProcOp.writeToStdin input.text :: next.2.2)

/-- `ConsoleProcess::onContinue(ops)`: return `false` at once when the
interrupt flag is set; otherwise drain the input queue, apply a pending
resize (both dimensions set), and return `true`. -/
def ConsoleProcess.onContinue (cp : ConsoleProcess) (fs : FileSys) : ContinueResult :=
  if cp.interrupt then ⟨false, cp, fs, []⟩
  else
    let drained := drainInputQueue cp.inputQueue { cp with inputQueue := [] } fs
    let cp1 := drained.1
    if cp1.newCols ≠ -1 ∧ cp1.newRows ≠ -1 then
      ⟨true, { cp1 with newCols := -1, newRows := -1 }, drained.2.1,
        drained.2.2 ++ [ProcOp.ptySetSize cp1.newCols cp1.newRows]⟩
    else
      ⟨true, cp1, drained.2.1, drained.2.2⟩

/-- `ConsoleProcess::interrupt()`: set the interrupt flag. -/
def ConsoleProcess.interruptRequest (cp : ConsoleProcess) : ConsoleProcess :=
  { cp with interrupt := true }

/-- `ConsoleProcess::resize(cols, rows)`: record the most recent
requested size. -/
def ConsoleProcess.resize (cp : ConsoleProcess) (cols rows : Int) : ConsoleProcess :=
  { cp with newCols := cols, newRows := rows }

/-- `ConsoleProcess::enqueInput(input)`: append to the FIFO queue. -/
def ConsoleProcess.enqueInput (cp : ConsoleProcess) (input : Input) : ConsoleProcess :=
  { cp with inputQueue := cp.inputQueue ++ [input] }

/-- Outcome of `ConsoleProcess::start()`: the returned `Error` (`none`
is `Success()`), whether a launch through the process supervisor was
attempted at all, and the resulting session state. -/
structure StartOutcome where
  error : Option Str
  attempted : Bool
  cp : ConsoleProcess
deriving DecidableEq

/-- `ConsoleProcess::start()`: a no-op success when already started;
otherwise run the program/command/terminal through the external process
supervisor — `launchError` is the error that supervisor returns
(`none` for success) — and mark the session started only on success. -/
def ConsoleProcess.start (launchError : Option Str) (cp : ConsoleProcess) : StartOutcome :=
  if cp.procInfo.started then ⟨none, false, cp⟩
  else
    match launchError with
    | some e => ⟨some e, true, cp⟩
    | none =>
      ⟨none, true, { cp with procInfo := { cp.procInfo with started := true } }⟩

/-- A cached password entry (`PasswordManager::CachedPassword`). -/
structure CachedPassword where
  cpHandle : Str
  prompt : Str
  password : Str
  remember : Bool
deriving DecidableEq

/-- `PasswordManager::hasPrompt`: compares the prompt text only — the
owning handle is not consulted. -/
def PasswordManager.hasPrompt (cachedPassword : CachedPassword) (prompt : Str) : Bool :=
  cachedPassword.prompt == prompt

/-- `PasswordManager::hasHandle`. -/
def PasswordManager.hasHandle (cachedPassword : CachedPassword) (cpHandle : Str) : Bool :=
  cachedPassword.cpHandle == cpHandle

/-- `PasswordManager::forgetOnExit`: same handle and `remember` not
set. -/
def PasswordManager.forgetOnExit (cachedPassword : CachedPassword) (cpHandle : Str) : Bool :=
  PasswordManager.hasHandle cachedPassword cpHandle && !cachedPassword.remember

/-- Result of `PasswordManager::handlePrompt`: the returned bool
(`handled`), the `Input` written through the out-parameter, the cache
after the call, and whether the interactive `promptHandler_` callback
was invoked. -/
structure HandlePromptResult where
  handled : Bool
  input : Input
  passwords : List CachedPassword
  promptedUser : Bool
deriving DecidableEq

/-- `PasswordManager::handlePrompt(cpHandle, prompt, showRememberOption,
pInput)`.  `promptPattern` is the manager's `promptPattern_` regex
(supplied at construction, outside this file's code) and `promptHandler`
is the interactive `promptHandler_` callback, returning
`some (password, remember)` on entry and `none` on cancellation.  The
cache lookup is `find_if(hasPrompt(_, prompt))`: the first entry whose
prompt text equals the request's, regardless of handle. -/
def PasswordManager.handlePrompt (promptPattern : Str → Bool)
    (promptHandler : Str → Bool → Option (Str × Bool))
    (passwords : List CachedPassword) (cpHandle prompt : Str)
    (showRememberOption : Bool) : HandlePromptResult :=
  if promptPattern prompt then
    match passwords.find? (fun c => PasswordManager.hasPrompt c prompt) with
    | some entry =>
      ⟨true, ⟨false, entry.password ++ ['\n'], false⟩, passwords, false⟩
    | none =>
      match promptHandler prompt showRememberOption with
      | some (password, remember) =>
        ⟨true, ⟨false, password ++ ['\n'], false⟩,
          passwords ++ [⟨cpHandle, prompt, password, remember⟩], true⟩
      | none =>
        ⟨true, Input.emptyInput, passwords, true⟩
  else
    ⟨false, Input.emptyInput, passwords, false⟩

/-- `PasswordManager::onExit(cpHandle, exitCode)`: a failing exit purges
every entry for the handle; a clean exit (`EXIT_SUCCESS = 0`) purges
only the entries for the handle whose remember flag is unset
(`erase(remove_if(...))` keeps the complement, in order). -/
def PasswordManager.onExit (passwords : List CachedPassword) (cpHandle : Str)
    (exitCode : Int) : List CachedPassword :=
  if exitCode ≠ 0 then
    passwords.filter (fun p => !(PasswordManager.hasHandle p cpHandle))
  else
    passwords.filter (fun p => !(PasswordManager.forgetOnExit p cpHandle))

/-- The process-wide registry `s_procs` (`std::map<std::string,
shared_ptr<ConsoleProcess>>`), as an association list keyed by
handle. -/
abbrev ProcTable := List (Str × ConsoleProcess)

/-- `s_procs.find(handle)`. -/
def tableFind : ProcTable → Str → Option ConsoleProcess
  | [], _ => none
  | (k, v) :: rest, h => if k = h then some v else tableFind rest h

/-- `s_procs[handle] = proc` (insert or assign). -/
def tableInsert : ProcTable → Str → ConsoleProcess → ProcTable
  | [], h, p => [(h, p)]
  | (k, v) :: rest, h, p =>
    if k = h then (h, p) :: rest else (k, v) :: tableInsert rest h p

/-- The registry's handles, in table order. -/
def tableKeys (t : ProcTable) : List Str := t.map Prod.fst

/-- Number of registry entries under a given handle. -/
def countKey (t : ProcTable) (h : Str) : Nat :=
  (tableKeys t).countP (fun k => decide (k = h))

/-- The ctor chain `ConsoleProcess(command, options, procInfo)` +
`commonInit()`: ensure a handle (a fresh one is generated when the
metadata has none — handle generation lives in `ConsoleProcessInfo`,
outside `src/`, so the fresh value is a parameter), force
`redirectStdErrToStdOut`, and append the dummy `'\n'` that marks the
start of the output buffer.  (The TERM / pseudoterminal / Windows
`consoleio` environment plumbing has no further effect on the state
modelled here.) -/
def ConsoleProcess.mkFromCtor (command : Str) (options : ProcessOptions)
    (info : ConsoleProcessInfo) (freshHandle : Str) : ConsoleProcess :=
  { command := command
    program := []
    args := []
    options := { options with redirectStdErrToStdOut := true }
    procInfo :=
      { info with
        handle := if info.handle = [] then freshHandle else info.handle
        outputBuffer := info.outputBuffer ++ ['\n'] }
    interrupt := false
    newCols := -1
    newRows := -1
    childProcsSent := false
    inputQueue := [] }

/-- `ConsoleProcess::create(command, options, procInfo)`: force
`terminateChildren`, construct, insert into the registry under the new
session's handle (and persist the table — a file-system side effect not
tracked here). -/
def ConsoleProcess.create (command : Str) (options : ProcessOptions)
    (info : ConsoleProcessInfo) (freshHandle : Str) (table : ProcTable) :
    ConsoleProcess × ProcTable :=
  let p := ConsoleProcess.mkFromCtor command { options with terminateChildren := true }
    info freshHandle
  (p, tableInsert table p.handle p)

/-- `ConsoleProcess::createTerminalProcess(options, procInfo)`: when
restart is allowed, the metadata carries a handle, and a started session
exists in the registry under that handle, jiggle its pty size to 25×5
and return it (the registry keeps holding the same shared object, which
the keyed update models); in every other case fall through to creating
a new process with an empty command (the explicit "create new process
with previously used handle" branch of the source performs exactly the
same steps as `create`). -/
def ConsoleProcess.createTerminalProcess (options : ProcessOptions)
    (info : ConsoleProcessInfo) (freshHandle : Str) (table : ProcTable) :
    ConsoleProcess × ProcTable :=
  if info.allowRestart = true ∧ info.handle ≠ [] then
    match tableFind table info.handle with
    | some p =>
      if p.procInfo.started then
        let p1 := p.resize 25 5
        (p1, tableInsert table info.handle p1)
      else
        ConsoleProcess.create [] options info freshHandle table
    | none => ConsoleProcess.create [] options info freshHandle table
  else
    ConsoleProcess.create [] options info freshHandle table

/-- The `process_get_buffer` boundary operation (`procGetBuffer`): an
unknown handle is the distinguished invalid-argument failure; otherwise
the saved buffer is returned. -/
def procGetBuffer (table : ProcTable) (fs : FileSys) (handle : Str) : Except Unit Str :=
  match tableFind table handle with
  | some p => Except.ok (p.getSavedBuffer fs)
  | none => Except.error ()

/-- The per-session JSON object of the persisted index.  Modelled from
the spec (§6): `ConsoleProcessInfo::toJson`/`fromJson` live outside
`src/`; each object carries at least handle, `allowRestart`,
`hasChildProcs`, exit code, terminal identity, caption/title, and the
embedded output text — live-process state is never persisted. -/
structure ProcJson where
  handle : Str
  caption : Str
  title : Str
  terminalSequence : Int
  allowRestart : Bool
  hasChildProcs : Bool
  exitCode : Option Int
  maxOutputLines : Nat
  buffer : Str
deriving DecidableEq

/-- Modelled from the spec: `ConsoleProcessInfo::toJson` (not under
`src/`). -/
def ConsoleProcessInfo.toJson (info : ConsoleProcessInfo) : ProcJson :=
  { handle := info.handle
    caption := info.caption
    title := info.title
    terminalSequence := info.terminalSequence
    allowRestart := info.allowRestart
    hasChildProcs := info.hasChildProcs
    exitCode := info.exitCode
    maxOutputLines := info.maxOutputLines
    buffer := info.outputBuffer }

/-- Modelled from the spec: `ConsoleProcessInfo::fromJson` (not under
`src/`) reconstructs inert metadata — no live process, so the started
flag is clear. -/
def ConsoleProcessInfo.fromJson (j : ProcJson) : ConsoleProcessInfo :=
  { handle := j.handle
    caption := j.caption
    title := j.title
    terminalSequence := j.terminalSequence
    allowRestart := j.allowRestart
    started := false
    hasChildProcs := j.hasChildProcs
    exitCode := j.exitCode
    maxOutputLines := j.maxOutputLines
    outputBuffer := j.buffer }

/-- Default-constructed `ProcessOptions` (all modelled flags clear). -/
def ProcessOptions.defaults : ProcessOptions :=
  ⟨false, false, false, false⟩

/-- `ConsoleProcess::fromJson`: rebuild the metadata, then run the
metadata-only constructor, which appends the dummy `'\n'` to the
embedded output buffer. -/
def ConsoleProcess.fromJson (j : ProcJson) : ConsoleProcess :=
  let info := ConsoleProcessInfo.fromJson j
  { command := []
    program := []
    args := []
    options := ProcessOptions.defaults
    procInfo := { info with outputBuffer := info.outputBuffer ++ ['\n'] }
    interrupt := false
    newCols := -1
    newRows := -1
    childProcsSent := false
    inputQueue := [] }

/-- `serializeConsoleProcs` (with `suspend = false`): the ordered
collection of per-session JSON objects, one per registry entry.  The
final `json::write` to a string and its inverse `json::parse` are
`core/json`, outside `src/`; per the spec (§6) that encoding round-trips
losslessly, so serialization is stated at the collection level. -/
def serializeConsoleProcs (table : ProcTable) : List ProcJson :=
  table.map (fun kv => kv.2.procInfo.toJson)

/-- `deserializeConsoleProcs`: reconstruct each session from its JSON
object and insert it into the registry under its handle. -/
def deserializeConsoleProcs (js : List ProcJson) (table : ProcTable) : ProcTable :=
  js.foldl (fun t j =>
    let p := ConsoleProcess.fromJson j
    tableInsert t p.handle p) table

/-- The persisted view of one session: everything the round-trip claim
compares (handle identity, flags, caption/title, exit code, terminal
identity, line limit) — live-process state and the output buffer are
outside it. -/
structure PersistedView where
  handle : Str
  caption : Str
  title : Str
  terminalSequence : Int
  allowRestart : Bool
  hasChildProcs : Bool
  exitCode : Option Int
  maxOutputLines : Nat
deriving DecidableEq

/-- Project a session to its persisted view. -/
def persistedView (cp : ConsoleProcess) : PersistedView :=
  { handle := cp.procInfo.handle
    caption := cp.procInfo.caption
    title := cp.procInfo.title
    terminalSequence := cp.procInfo.terminalSequence
    allowRestart := cp.procInfo.allowRestart
    hasChildProcs := cp.procInfo.hasChildProcs
    exitCode := cp.procInfo.exitCode
    maxOutputLines := cp.procInfo.maxOutputLines }

/-- Registry invariant: every entry is stored under its own handle. -/
abbrev wellKeyed (t : ProcTable) : Prop :=
  ∀ kv ∈ t, (kv : Str × ConsoleProcess).2.procInfo.handle = kv.1

/-- Registry invariant: handles are unique within the table. -/
abbrev keysNodup (t : ProcTable) : Prop := (tableKeys t).Nodup

/-- The content of the session's output sink: the embedded buffer for a
modal console, the handle-named log file for a terminal tab. -/
def sinkContent (cp : ConsoleProcess) (fs : FileSys) : Str :=
  if cp.procInfo.terminalSequence = kNoTerminal then cp.procInfo.outputBuffer
  else fsRead fs cp.procInfo.handle

/-- Process options of an interactive non-smart console session. -/
def sampleOptions : ProcessOptions := ⟨false, false, true, false⟩

/-- A started modal console (terminal sequence `kNoTerminal`), buffer
holding only the constructor's dummy newline. -/
def sampleInfoModal : ConsoleProcessInfo :=
  { handle := "h0".toList
    caption := []
    title := []
    terminalSequence := kNoTerminal
    allowRestart := false
    started := true
    hasChildProcs := false
    exitCode := none
    maxOutputLines := 100
    outputBuffer := ['\n'] }

/-- A non-smart modal console session. -/
def sampleCpModal : ConsoleProcess :=
  { command := []
    program := []
    args := []
    options := sampleOptions
    procInfo := sampleInfoModal
    interrupt := false
    newCols := -1
    newRows := -1
    childProcsSent := false
    inputQueue := [] }

/-- A session context with no pending events or operations. -/
def sampleWorldModal : World := ⟨sampleCpModal, [], [], []⟩

/-- A started terminal-tab session under handle `"t1"` with restart
allowed, configured to echo at most one line per event, running a smart
terminal. -/
def sampleCpTerm : ConsoleProcess :=
  { command := []
    program := []
    args := []
    options := { sampleOptions with smartTerminal := true, terminateChildren := true }
    procInfo :=
      { handle := "t1".toList
        caption := "tab one".toList
        title := []
        terminalSequence := 1
        allowRestart := true
        started := true
        hasChildProcs := false
        exitCode := none
        maxOutputLines := 1
        outputBuffer := ['\n'] }
    interrupt := false
    newCols := -1
    newRows := -1
    childProcsSent := false
    inputQueue := [] }

/-- A session context around the smart terminal tab. -/
def sampleWorldSmart : World := ⟨sampleCpTerm, [], [], []⟩

/-- A queued interrupt input with echo requested. -/
def sampleEchoInterrupt : Input := ⟨true, [], true⟩

/-- The modal session after `interrupt()` with an echo-requesting
interrupt input still queued. -/
def sampleCpInterrupted : ConsoleProcess :=
  { sampleCpModal with interrupt := true, inputQueue := [sampleEchoInterrupt] }

/-- Reattachment request metadata naming the started session `"t1"`. -/
def sampleReattachInfo : ConsoleProcessInfo :=
  { handle := "t1".toList
    caption := "tab one".toList
    title := []
    terminalSequence := 1
    allowRestart := true
    started := false
    hasChildProcs := false
    exitCode := none
    maxOutputLines := 1
    outputBuffer := [] }

/-- A two-session registry (one modal console, one terminal tab). -/
def sampleTable : ProcTable :=
  [("h0".toList, sampleCpModal), ("t1".toList, sampleCpTerm)]

/-- A concrete password-prompt pattern for instantiating
`PasswordManager` theorems. -/
def samplePattern : Str → Bool := fun s => s == "Password: ".toList

/-- A concrete interactive callback that answers `"typed"` and declines
to remember. -/
def sampleHandler : Str → Bool → Option (Str × Bool) :=
  fun _ _ => some ("typed".toList, false)

/-- A cache holding a remembered password that session `"h1"` entered at
the prompt `"Password: "`. -/
def sampleCache : List CachedPassword :=
  [⟨"h1".toList, "Password: ".toList, "alpha".toList, true⟩]

/-- The modal session with an echo-requesting interrupt input queued but
the interrupt flag still clear. -/
def sampleCpQueuedInterrupt : ConsoleProcess :=
  { sampleCpModal with inputQueue := [sampleEchoInterrupt] }

/-- Append a sequence of output chunks to a session's sink, threading
the session and the log-file store. -/
def appendChunks : ConsoleProcess → FileSys → List Str → ConsoleProcess × FileSys
  | cp, fs, [] => (cp, fs)
  | cp, fs, c :: rest =>
    let r := cp.appendToOutputBuffer fs c
    appendChunks r.1 r.2 rest

theorem countNL_dropFirstLine (s : Str) : countNL (dropFirstLine s) = countNL s - 1 := by
  induction s with
  | nil => rfl
  | cons c s ih =>
    by_cases hc : c = '\n'
    · subst hc
      simp [dropFirstLine, countNL, List.dropWhile, List.countP_cons]
    · have hb : (c == '\n') = false := beq_eq_false_iff_ne.mpr hc
      have h1 : dropFirstLine (c :: s) = dropFirstLine s := by
        simp [dropFirstLine, List.dropWhile, hb]
      have h2 : countNL (c :: s) = countNL s := by
        simp [countNL, List.countP_cons, hb]
      rw [h1, h2, ih]

theorem countNL_dropLines (k : Nat) : ∀ s : Str, countNL (dropLines k s) = countNL s - k := by
  induction k with
  | zero => intro s; rfl
  | succ k ih =>
    intro s
    simp only [dropLines]
    rw [ih, countNL_dropFirstLine]
    omega

theorem numLines_trimLeadingLines (maxLines : Nat) (s : Str) (h : 1 ≤ maxLines) :
    numLines (trimLeadingLines maxLines s) ≤ maxLines := by
  unfold numLines trimLeadingLines
  rw [countNL_dropLines]
  unfold numLines
  omega

theorem dropFirstLine_suffix (s : Str) : ∃ p, p ++ dropFirstLine s = s := by
  unfold dropFirstLine
  rcases hdw : s.dropWhile (fun c => !(c == '\n')) with _ | ⟨a, l⟩
  · exact ⟨s, by simp⟩
  · refine ⟨s.takeWhile (fun c => !(c == '\n')) ++ [a], ?_⟩
    have := List.takeWhile_append_dropWhile (p := fun c => !(c == '\n')) (l := s)
    rw [hdw] at this
    simpa using this

theorem dropLines_suffix (k : Nat) : ∀ s : Str, ∃ p, p ++ dropLines k s = s := by
  induction k with
  | zero => intro s; exact ⟨[], rfl⟩
  | succ k ih =>
    intro s
    obtain ⟨p, hp⟩ := ih (dropFirstLine s)
    obtain ⟨q, hq⟩ := dropFirstLine_suffix s
    exact ⟨q ++ p, by simp [dropLines, List.append_assoc, hp, hq]⟩

theorem trimLeadingLines_suffix (maxLines : Nat) (s : Str) :
    ∃ p, p ++ trimLeadingLines maxLines s = s :=
  dropLines_suffix _ s

theorem fsRead_fsAppend_self (fs : FileSys) (h s : Str) :
    fsRead (fsAppend fs h s) h = fsRead fs h ++ s := by
  induction fs with
  | nil => simp [fsRead, fsAppend]
  | cons kv rest ih =>
    obtain ⟨k, v⟩ := kv
    by_cases hk : k = h <;> simp [fsRead, fsAppend, hk, ih]

theorem appendToOutputBuffer_handle (cp : ConsoleProcess) (fs : FileSys) (s : Str) :
    (cp.appendToOutputBuffer fs s).1.procInfo.handle = cp.procInfo.handle := by
  unfold ConsoleProcess.appendToOutputBuffer
  split <;> rfl

theorem appendToOutputBuffer_terminalSequence (cp : ConsoleProcess) (fs : FileSys) (s : Str) :
    (cp.appendToOutputBuffer fs s).1.procInfo.terminalSequence =
      cp.procInfo.terminalSequence := by
  unfold ConsoleProcess.appendToOutputBuffer
  split <;> rfl

theorem sinkContent_appendToOutputBuffer (cp : ConsoleProcess) (fs : FileSys) (s : Str) :
    sinkContent (cp.appendToOutputBuffer fs s).1 (cp.appendToOutputBuffer fs s).2 =
      sinkContent cp fs ++ s := by
  unfold sinkContent ConsoleProcess.appendToOutputBuffer
  by_cases hm : cp.procInfo.terminalSequence = kNoTerminal
  · simp [hm, ConsoleProcessInfo.appendToOutputBuffer]
  · simp [hm, fsRead_fsAppend_self]

/-- C7: every output event carries a payload trimmed to the configured
maximum number of lines — the payload is a suffix of the chunk and, for
a positive limit `N`, spans at most `N` lines — while the full
untruncated chunk is appended to the output sink by the same call. -/
theorem enqueOutputEvent_truncates (w : World) (output : Str) (error : Bool) :
    (w.enqueOutputEvent output error).events =
      w.events ++ [ClientEvent.consoleProcessOutput w.cp.handle error
        (trimLeadingLines w.cp.procInfo.maxOutputLines output)]
    ∧ sinkContent (w.enqueOutputEvent output error).cp (w.enqueOutputEvent output error).fs =
        sinkContent w.cp w.fs ++ output
    ∧ (1 ≤ w.cp.procInfo.maxOutputLines →
        numLines (trimLeadingLines w.cp.procInfo.maxOutputLines output) ≤
          w.cp.procInfo.maxOutputLines)
    ∧ (∃ dropped, dropped ++ trimLeadingLines w.cp.procInfo.maxOutputLines output = output) := by
  refine ⟨rfl, ?_, numLines_trimLeadingLines _ _, trimLeadingLines_suffix _ _⟩
  simpa [World.enqueOutputEvent, World.appendSink] using
    sinkContent_appendToOutputBuffer w.cp w.fs output

/-- Witness for C7 at the one-line-limit terminal tab and the chunk
`"a\nb\nc"`. -/
theorem enqueOutputEvent_truncates_witness :
    numLines (trimLeadingLines sampleWorldSmart.cp.procInfo.maxOutputLines ("a\nb\nc".toList)) ≤
      sampleWorldSmart.cp.procInfo.maxOutputLines :=
  (enqueOutputEvent_truncates sampleWorldSmart ("a\nb\nc".toList) false).2.2.1 (by decide)

/-- C4: `PasswordManager::onExit` keeps exactly the entries that either
belong to another handle, or — on a clean exit — carry the remember
flag: an entry survives iff it was cached before and (failure exit →
different handle) and (clean exit → same handle implies remembered).
The surviving entries form a sublist (no reordering, no duplication). -/
theorem passwordManager_onExit_purge (passwords : List CachedPassword) (cpHandle : Str)
    (exitCode : Int) (p : CachedPassword) :
    (p ∈ PasswordManager.onExit passwords cpHandle exitCode ↔
      p ∈ passwords ∧ (exitCode ≠ 0 → p.cpHandle ≠ cpHandle) ∧
        (exitCode = 0 → p.cpHandle = cpHandle → p.remember = true))
    ∧ (PasswordManager.onExit passwords cpHandle exitCode).Sublist passwords := by
  refine ⟨?_, ?_⟩
  · by_cases hc : exitCode = 0
    · simp only [PasswordManager.onExit, hc, ne_eq, not_true_eq_false, if_false,
        List.mem_filter, PasswordManager.hasHandle, PasswordManager.forgetOnExit,
        Bool.not_eq_true', Bool.and_eq_false_iff, beq_eq_false_iff_ne, beq_iff_eq,
        Bool.not_eq_false']
      tauto
    · simp only [PasswordManager.onExit, hc, ne_eq, not_false_eq_true, if_true,
        List.mem_filter, PasswordManager.hasHandle, Bool.not_eq_true',
        beq_eq_false_iff_ne]
      tauto
  · unfold PasswordManager.onExit
    split <;> exact List.filter_sublist _

/-- Witness for C4: session `"h1"` exits cleanly and its remembered
`"Password: "` entry survives. -/
theorem passwordManager_onExit_purge_witness :
    (⟨"h1".toList, "Password: ".toList, "alpha".toList, true⟩ : CachedPassword) ∈
      PasswordManager.onExit sampleCache ("h1".toList) 0 :=
  (passwordManager_onExit_purge sampleCache ("h1".toList) 0 _).1.mpr
    ⟨by decide, by decide, by decide⟩

/-- C9: `start()` on an already-started session attempts no launch and
returns success with the session untouched; a failed launch returns that
failure and leaves the session not-started; a successful launch marks it
started. -/
theorem consoleProcess_start_contract (cp : ConsoleProcess) (e : Str) :
    (cp.procInfo.started = true →
      ∀ launchError, ConsoleProcess.start launchError cp = ⟨none, false, cp⟩)
    ∧ (cp.procInfo.started = false →
        ConsoleProcess.start (some e) cp = ⟨some e, true, cp⟩)
    ∧ (cp.procInfo.started = false →
        ConsoleProcess.start none cp =
          ⟨none, true, { cp with procInfo := { cp.procInfo with started := true } }⟩) := by
  refine ⟨fun h le => ?_, fun h => ?_, fun h => ?_⟩ <;>
    simp [ConsoleProcess.start, h]

/-- Witness for C9: the started modal console and a failing launch
outcome for a copy that was never started. -/
theorem consoleProcess_start_contract_witness :
    ConsoleProcess.start none sampleCpModal = ⟨none, false, sampleCpModal⟩ ∧
    ConsoleProcess.start (some ("no such program".toList))
        { sampleCpModal with procInfo := { sampleInfoModal with started := false } } =
      ⟨some ("no such program".toList), true,
        { sampleCpModal with procInfo := { sampleInfoModal with started := false } }⟩ :=
  ⟨(consoleProcess_start_contract sampleCpModal []).1 (by decide) none,
   (consoleProcess_start_contract
      { sampleCpModal with procInfo := { sampleInfoModal with started := false } }
      ("no such program".toList)).2.1 (by decide)⟩

/-- C2 counterexample: the cache holds an entry for handle `"h1"` only,
yet a request from handle `"h2"` with the same prompt text is resolved
from that entry (`input.text = "alpha\n"`) and the interactive callback
is never invoked — the cache lookup compares prompt text only, so "a
cached entry is used only if it has the same (handle, promptText) pair"
fails. -/
theorem passwordManager_handlePrompt_cross_handle_counterexample :
    (PasswordManager.handlePrompt samplePattern sampleHandler sampleCache
        ("h2".toList) ("Password: ".toList) true).input.text = "alpha\n".toList
    ∧ (PasswordManager.handlePrompt samplePattern sampleHandler sampleCache
        ("h2".toList) ("Password: ".toList) true).promptedUser = false
    ∧ sampleCache.all (fun c => !(c.cpHandle == "h2".toList)) = true := by
  decide

/-- C2 amended: when the prompt text matches the password pattern and
the cache holds an entry with the same prompt text — the handle is not
compared — the first such entry resolves the prompt immediately: the
result is handled with the cached password plus a newline, the cache is
unchanged, and the interactive callback is not invoked. -/
theorem passwordManager_handlePrompt_cached (promptPattern : Str → Bool)
    (promptHandler : Str → Bool → Option (Str × Bool))
    (passwords : List CachedPassword) (cpHandle prompt : Str) (showRememberOption : Bool)
    (entry : CachedPassword)
    (hpat : promptPattern prompt = true)
    (hfind : passwords.find? (fun c => PasswordManager.hasPrompt c prompt) = some entry) :
    PasswordManager.handlePrompt promptPattern promptHandler passwords cpHandle prompt
        showRememberOption =
      ⟨true, ⟨false, entry.password ++ ['\n'], false⟩, passwords, false⟩ := by
  simp [PasswordManager.handlePrompt, hpat, hfind]

/-- Witness for the amended C2 at the concrete cross-handle request. -/
theorem passwordManager_handlePrompt_cached_witness :
    PasswordManager.handlePrompt samplePattern sampleHandler sampleCache
        ("h2".toList) ("Password: ".toList) true =
      ⟨true, ⟨false, "alpha".toList ++ ['\n'], false⟩, sampleCache, false⟩ :=
  passwordManager_handlePrompt_cached samplePattern sampleHandler sampleCache
    ("h2".toList) ("Password: ".toList) true
    ⟨"h1".toList, "Password: ".toList, "alpha".toList, true⟩
    (by decide) (by decide)

/-- C10 counterexample: a smart-terminal session configured for at most
one line per event receives the chunk `"a\nb\nc"`; the emitted output
event carries only `"c"`, so the chunk is not forwarded unchanged. -/
theorem onStdout_smart_truncated_counterexample :
    (World.onStdout none sampleWorldSmart ("a\nb\nc".toList)).events =
      [ClientEvent.consoleProcessOutput ("t1".toList) false ("c".toList)]
    ∧ ("c".toList : Str) ≠ "a\nb\nc".toList := by
  decide

/-- C10 amended: for a smart-terminal session `onStdout` emits exactly
one output event per chunk whose payload is the raw chunk trimmed to the
configured maximum lines — no line-ending normalization, no prompt
detection (no prompt event and no process operation is ever produced
from output) — and `bufferedOutput()` is the empty string no matter what
the buffer holds. -/
theorem onStdout_smart_forwards (handler : Option PromptHandler) (w : World) (chunk : Str)
    (hsm : w.cp.options.smartTerminal = true) :
    (World.onStdout handler w chunk).events =
      w.events ++ [ClientEvent.consoleProcessOutput w.cp.handle false
        (trimLeadingLines w.cp.procInfo.maxOutputLines chunk)]
    ∧ (World.onStdout handler w chunk).ops = w.ops
    ∧ ConsoleProcess.bufferedOutput w.cp = [] := by
  refine ⟨?_, ?_, ?_⟩ <;>
    simp [World.onStdout, hsm, World.enqueOutputEvent, World.appendSink,
      ConsoleProcess.bufferedOutput]

/-- Witness for the amended C10: the chunk `"x\r"` is forwarded with its
carriage return intact (no normalization) on the smart terminal tab. -/
theorem onStdout_smart_forwards_witness :
    (World.onStdout none sampleWorldSmart ("x\r".toList)).events =
      sampleWorldSmart.events ++
        [ClientEvent.consoleProcessOutput sampleWorldSmart.cp.handle false
          (trimLeadingLines sampleWorldSmart.cp.procInfo.maxOutputLines ("x\r".toList))]
    ∧ (World.onStdout none sampleWorldSmart ("x\r".toList)).ops = sampleWorldSmart.ops
    ∧ ConsoleProcess.bufferedOutput sampleWorldSmart.cp = [] :=
  onStdout_smart_forwards none sampleWorldSmart ("x\r".toList) (by decide)

/-- C1: the control-character exclusion is broken in the source.
`maybeConsolePrompt` tests `controlCharsPattern_` and `promptPattern_`
in two independent `if` statements (no `else` joins them), contradicting
the comment "treat special control characters as output rather than a
prompt": the non-smart chunk `"ab\x08: "` — whose prompt candidate is
the whole chunk and contains a backspace — is enqueued as an output
event and is then also matched by the prompt pattern, producing a prompt
event as well. -/
theorem maybeConsolePrompt_control_char_still_prompts :
    (World.onStdout none sampleWorldModal ("ab\x08: ".toList)).events =
      [ClientEvent.consoleProcessOutput ("h0".toList) false ("ab\x08: ".toList),
       ClientEvent.consoleProcessPrompt ("h0".toList) ("ab\x08: ".toList)]
    ∧ controlSearch ("ab\x08: ".toList) = true
    ∧ sampleWorldModal.cp.options.smartTerminal = false := by
  decide

/-- C3 counterexample: after `interrupt()` (flag set) with an
echo-requesting interrupt input still queued, the next tick returns
`false` untouched — no `ptyInterrupt` is delivered, no `"^C"` is echoed,
the queue is not drained, and the flag is not consumed (it stays set):
the signal delivery and `^C` echo belong to queued interrupt inputs, not
to `interrupt()`. -/
theorem onContinue_interrupted_counterexample :
    ConsoleProcess.onContinue sampleCpInterrupted [] =
      ⟨false, sampleCpInterrupted, [], []⟩
    ∧ sampleCpInterrupted.interrupt = true
    ∧ sampleEchoInterrupt.echoInput = true
    ∧ sampleCpInterrupted.inputQueue = [sampleEchoInterrupt] := by
  decide

/-- C3 amended: `onContinue` returns `false` — terminate the process
now — exactly when the interrupt flag is set (and then performs no
operation and changes nothing, the flag included); when the flag is
clear, a queued interrupt input is drained into a `ptyInterrupt`
delivery plus, when echo was requested, a `"^C"` token appended to the
output buffer (stated for a modal console with no pending resize). -/
theorem onContinue_interrupt_contract (cp : ConsoleProcess) (fs : FileSys) (i : Input) :
    ((cp.onContinue fs).keepRunning = false ↔ cp.interrupt = true)
    ∧ (cp.interrupt = true → cp.onContinue fs = ⟨false, cp, fs, []⟩)
    ∧ (cp.interrupt = false → cp.inputQueue = [i] → i.interrupt = true →
        cp.newCols = -1 → cp.procInfo.terminalSequence = kNoTerminal →
        (cp.onContinue fs).ops = [ProcOp.ptyInterrupt]
        ∧ (cp.onContinue fs).cp.procInfo.outputBuffer =
            cp.procInfo.outputBuffer ++ (if i.echoInput then ['^', 'C'] else [])
        ∧ (cp.onContinue fs).keepRunning = true) := by
  refine ⟨?_, fun h => ?_, fun h hq hi hcols hmodal => ?_⟩
  · by_cases h : cp.interrupt
    · simp [ConsoleProcess.onContinue, h]
    · simp only [ConsoleProcess.onContinue, h, if_true, if_false, Bool.false_eq_true,
        iff_false, iff_true]
      split <;> simp
  · simp [ConsoleProcess.onContinue, h]
  · by_cases he : i.echoInput <;>
      simp [ConsoleProcess.onContinue, h, hq, hi, drainInputQueue, he,
        ConsoleProcess.appendToOutputBuffer, hmodal, ConsoleProcessInfo.appendToOutputBuffer,
        hcols]

/-- Witness for the amended C3: the queued echo-interrupt is drained
into a `ptyInterrupt` plus an echoed `"^C"` once the flag is clear. -/
theorem onContinue_interrupt_contract_witness :
    (ConsoleProcess.onContinue sampleCpQueuedInterrupt []).ops = [ProcOp.ptyInterrupt]
    ∧ (ConsoleProcess.onContinue sampleCpQueuedInterrupt []).cp.procInfo.outputBuffer =
        sampleCpQueuedInterrupt.procInfo.outputBuffer ++
          (if sampleEchoInterrupt.echoInput then ['^', 'C'] else [])
    ∧ (ConsoleProcess.onContinue sampleCpQueuedInterrupt []).keepRunning = true :=
  (onContinue_interrupt_contract sampleCpQueuedInterrupt [] sampleEchoInterrupt).2.2
    (by decide) (by decide) (by decide) (by decide) (by decide)

/-- C6 counterexample: a modal console stores `"hello"` in its output
storage (the embedded metadata buffer), yet `process_get_buffer` for its
handle returns the empty string — `getSavedBuffer` always reads the
handle-named log file and never the embedded buffer, so the returned
string is not the bytes previously appended. -/
theorem procGetBuffer_modal_counterexample :
    (sampleCpModal.appendToOutputBuffer [] ("hello".toList)).1.procInfo.outputBuffer =
      '\n' :: "hello".toList
    ∧ procGetBuffer
        [("h0".toList, (sampleCpModal.appendToOutputBuffer [] ("hello".toList)).1)]
        (sampleCpModal.appendToOutputBuffer [] ("hello".toList)).2 ("h0".toList) =
      Except.ok []
    ∧ ('\n' :: "hello".toList : Str) ≠ [] :=
  ⟨by decide, rfl, by decide⟩

/-- C6 amended: `get_buffer` returns the handle-named log file verbatim.
For a terminal tab (non-sentinel terminal identity) the file holds
exactly the previously appended bytes, so the returned string is the
prior content extended by every appended chunk in order; for a modal
console the appends go to the embedded metadata buffer, the log file is
never written, and `getSavedBuffer` does not reflect them. -/
theorem getSavedBuffer_verbatim (cp : ConsoleProcess) (fs : FileSys) (chunks : List Str) :
    (cp.procInfo.terminalSequence ≠ kNoTerminal →
      ConsoleProcess.getSavedBuffer (appendChunks cp fs chunks).2 (appendChunks cp fs chunks).1 =
        ConsoleProcess.getSavedBuffer fs cp ++ chunks.flatten)
    ∧ (cp.procInfo.terminalSequence = kNoTerminal →
        (appendChunks cp fs chunks).2 = fs
        ∧ ConsoleProcess.getSavedBuffer (appendChunks cp fs chunks).2
            (appendChunks cp fs chunks).1 =
          ConsoleProcess.getSavedBuffer fs cp) := by
  induction chunks generalizing cp fs with
  | nil => exact ⟨fun _ => by simp [appendChunks], fun _ => ⟨rfl, rfl⟩⟩
  | cons c rest ih =>
    constructor
    · intro hterm
      have hstep : cp.appendToOutputBuffer fs c = (cp, fsAppend fs cp.procInfo.handle c) := by
        simp [ConsoleProcess.appendToOutputBuffer, hterm]
      have := (ih cp (fsAppend fs cp.procInfo.handle c)).1 hterm
      simp only [appendChunks, hstep] at *
      rw [this]
      simp [ConsoleProcess.getSavedBuffer, fsRead_fsAppend_self, List.flatten]
    · intro hterm
      have hstep :
          cp.appendToOutputBuffer fs c =
            ({ cp with procInfo := cp.procInfo.appendToOutputBuffer c }, fs) := by
        simp [ConsoleProcess.appendToOutputBuffer, hterm]
      have hterm2 :
          ({ cp with procInfo := cp.procInfo.appendToOutputBuffer c} :
            ConsoleProcess).procInfo.terminalSequence = kNoTerminal := by
        simpa [ConsoleProcessInfo.appendToOutputBuffer] using hterm
      have := (ih { cp with procInfo := cp.procInfo.appendToOutputBuffer c } fs).2 hterm2
      simp only [appendChunks, hstep] at *
      exact ⟨this.1, by
        rw [this.2]
        simp [ConsoleProcess.getSavedBuffer, ConsoleProcessInfo.appendToOutputBuffer]⟩

/-- Witness for the amended C6: two chunks appended to the terminal tab
read back as their concatenation. -/
theorem getSavedBuffer_verbatim_witness :
    ConsoleProcess.getSavedBuffer
        (appendChunks sampleCpTerm [] ["ab".toList, "c\n".toList]).2
        (appendChunks sampleCpTerm [] ["ab".toList, "c\n".toList]).1 =
      ConsoleProcess.getSavedBuffer [] sampleCpTerm ++
        List.flatten ["ab".toList, "c\n".toList] :=
  (getSavedBuffer_verbatim sampleCpTerm [] ["ab".toList, "c\n".toList]).1 (by decide)

theorem tableFind_insert (t : ProcTable) (k : Str) (v : ConsoleProcess) (h : Str) :
    tableFind (tableInsert t k v) h = if k = h then some v else tableFind t h := by
  induction t with
  | nil => simp [tableInsert, tableFind]
  | cons kv rest ih =>
    obtain ⟨k1, v1⟩ := kv
    by_cases hk : k1 = k
    · subst hk
      simp only [tableInsert, if_pos rfl]
      by_cases hh : k1 = h <;> simp [tableFind, hh]
    · simp only [tableInsert, if_neg hk]
      by_cases hh : k1 = h
      · subst hh
        have hkh : ¬ k = k1 := fun e => hk e.symm
        simp [tableFind, hkh]
      · simp [tableFind, hh, ih]

theorem tableInsert_find_self (t : ProcTable) (k : Str) (v : ConsoleProcess)
    (hf : tableFind t k = some v) : tableInsert t k v = t := by
  induction t with
  | nil => simp [tableFind] at hf
  | cons kv rest ih =>
    obtain ⟨k1, v1⟩ := kv
    by_cases hk : k1 = k
    · subst hk
      have hv : v1 = v := by simpa [tableFind] using hf
      subst hv
      simp [tableInsert]
    · have hf2 : tableFind rest k = some v := by simpa [tableFind, hk] using hf
      simp [tableInsert, hk, ih hf2]

theorem tableKeys_insert_of_find (t : ProcTable) (k : Str) (v v0 : ConsoleProcess)
    (hf : tableFind t k = some v0) : tableKeys (tableInsert t k v) = tableKeys t := by
  induction t with
  | nil => simp [tableFind] at hf
  | cons kv rest ih =>
    obtain ⟨k1, v1⟩ := kv
    by_cases hk : k1 = k
    · subst hk
      simp [tableInsert, tableKeys]
    · have hf2 : tableFind rest k = some v0 := by simpa [tableFind, hk] using hf
      have := ih hf2
      simp only [tableKeys, List.map] at this ⊢
      simp [tableInsert, hk, this]

theorem mem_tableKeys_of_find (t : ProcTable) (k : Str) (v : ConsoleProcess)
    (hf : tableFind t k = some v) : k ∈ tableKeys t := by
  induction t with
  | nil => simp [tableFind] at hf
  | cons kv rest ih =>
    obtain ⟨k1, v1⟩ := kv
    by_cases hk : k1 = k
    · subst hk
      exact List.mem_cons_self _ _
    · have hf2 : tableFind rest k = some v := by simpa [tableFind, hk] using hf
      exact List.mem_cons_of_mem _ (ih hf2)

theorem countP_key_nodup (l : List Str) (h : Str) (hnd : l.Nodup) (hm : h ∈ l) :
    l.countP (fun k => decide (k = h)) = 1 := by
  induction l with
  | nil => simp at hm
  | cons a l ih =>
    rcases List.mem_cons.mp hm with rfl | hm2
    · have hnot : h ∉ l := (List.nodup_cons.mp hnd).1
      have hz : l.countP (fun k => decide (k = h)) = 0 :=
        List.countP_eq_zero.mpr (fun a ha => by
          simp only [decide_eq_true_eq]
          exact fun e => hnot (e ▸ ha))
      simp [List.countP_cons, hz]
    · have ha : a ≠ h := by
        rintro rfl
        exact (List.nodup_cons.mp hnd).1 hm2
      have := ih (List.nodup_cons.mp hnd).2 hm2
      simp [List.countP_cons, ha, this]

/-- C5: when restart is allowed, the request names a handle, and a
started session exists in the registry under it,
`createTerminalProcess` returns that session with only the 25×5 resize
recorded (its metadata — in particular the started flag — is untouched,
so no new process is created or launched), the registry keeps exactly
the same handles, a second identical call returns the very same session
and table, and the handle owns exactly one registry entry. -/
theorem createTerminalProcess_reattach (options : ProcessOptions)
    (info : ConsoleProcessInfo) (freshHandle : Str) (table : ProcTable)
    (p : ConsoleProcess)
    (har : info.allowRestart = true) (hh : info.handle ≠ [])
    (hf : tableFind table info.handle = some p) (hs : p.procInfo.started = true)
    (hnd : keysNodup table) :
    (ConsoleProcess.createTerminalProcess options info freshHandle table).1 = p.resize 25 5
    ∧ (ConsoleProcess.createTerminalProcess options info freshHandle table).2 =
        tableInsert table info.handle (p.resize 25 5)
    ∧ tableKeys (ConsoleProcess.createTerminalProcess options info freshHandle table).2 =
        tableKeys table
    ∧ ConsoleProcess.createTerminalProcess options info freshHandle
        (ConsoleProcess.createTerminalProcess options info freshHandle table).2 =
        ((ConsoleProcess.createTerminalProcess options info freshHandle table).1,
         (ConsoleProcess.createTerminalProcess options info freshHandle table).2)
    ∧ countKey (ConsoleProcess.createTerminalProcess options info freshHandle table).2
        info.handle = 1
    ∧ (ConsoleProcess.createTerminalProcess options info freshHandle table).1.procInfo =
        p.procInfo := by
  have hmain :
      ConsoleProcess.createTerminalProcess options info freshHandle table =
        (p.resize 25 5, tableInsert table info.handle (p.resize 25 5)) := by
    simp [ConsoleProcess.createTerminalProcess, har, hh, hf, hs]
  have hkeys :
      tableKeys (tableInsert table info.handle (p.resize 25 5)) = tableKeys table :=
    tableKeys_insert_of_find table info.handle (p.resize 25 5) p hf
  have hfind2 :
      tableFind (tableInsert table info.handle (p.resize 25 5)) info.handle =
        some (p.resize 25 5) := by
    simp [tableFind_insert]
  have hresize2 : (p.resize 25 5).resize 25 5 = p.resize 25 5 := rfl
  have hsecond :
      ConsoleProcess.createTerminalProcess options info freshHandle
          (tableInsert table info.handle (p.resize 25 5)) =
        (p.resize 25 5, tableInsert table info.handle (p.resize 25 5)) := by
    have hs2 : (p.resize 25 5).procInfo.started = true := hs
    simp only [ConsoleProcess.createTerminalProcess, har, hh, ne_eq,
      not_false_eq_true, and_self, if_true, hfind2, hs2, hresize2]
    rw [tableInsert_find_self _ _ _ hfind2]
  refine ⟨?_, ?_, ?_, ?_, ?_, ?_⟩
  · rw [hmain]
  · rw [hmain]
  · rw [hmain]
    exact hkeys
  · rw [hmain]
    exact hsecond
  · rw [hmain]
    unfold countKey
    rw [hkeys]
    exact countP_key_nodup _ _ hnd (mem_tableKeys_of_find table info.handle p hf)
  · rw [hmain]
    rfl

/-- Witness for C5 at the two-session registry and the reattachment
request for the started terminal tab `"t1"`. -/
theorem createTerminalProcess_reattach_witness :
    (ConsoleProcess.createTerminalProcess sampleOptions sampleReattachInfo
        ("f".toList) sampleTable).1 = sampleCpTerm.resize 25 5
    ∧ countKey (ConsoleProcess.createTerminalProcess sampleOptions sampleReattachInfo
        ("f".toList) sampleTable).2 sampleReattachInfo.handle = 1 :=
  ⟨(createTerminalProcess_reattach sampleOptions sampleReattachInfo ("f".toList)
      sampleTable sampleCpTerm (by decide) (by decide) (by decide) (by decide)
      (by decide)).1,
   (createTerminalProcess_reattach sampleOptions sampleReattachInfo ("f".toList)
      sampleTable sampleCpTerm (by decide) (by decide) (by decide) (by decide)
      (by decide)).2.2.2.2.1⟩

theorem tableInsert_of_find_none (t : ProcTable) (k : Str) (v : ConsoleProcess)
    (hf : tableFind t k = none) : tableInsert t k v = t ++ [(k, v)] := by
  induction t with
  | nil => rfl
  | cons kv rest ih =>
    obtain ⟨k1, v1⟩ := kv
    by_cases hk : k1 = k
    · simp [tableFind, hk] at hf
    · have hf2 : tableFind rest k = none := by simpa [tableFind, hk] using hf
      simp [tableInsert, hk, ih hf2]

theorem tableFind_append_single (t : ProcTable) (k h : Str) (v : ConsoleProcess)
    (hf : tableFind t h = none) :
    tableFind (t ++ [(k, v)]) h = if k = h then some v else none := by
  induction t with
  | nil => rfl
  | cons kv rest ih =>
    obtain ⟨k1, v1⟩ := kv
    by_cases hk : k1 = h
    · simp [tableFind, hk] at hf
    · have hf2 : tableFind rest h = none := by simpa [tableFind, hk] using hf
      simp [tableFind, hk, ih hf2]

theorem deserialize_fresh_appends (js : List ProcJson) :
    ∀ acc : ProcTable,
      (∀ j ∈ js, tableFind acc j.handle = none) →
      (js.map ProcJson.handle).Nodup →
      deserializeConsoleProcs js acc =
        acc ++ js.map (fun j => (j.handle, ConsoleProcess.fromJson j)) := by
  induction js with
  | nil => intro acc _ _; simp [deserializeConsoleProcs]
  | cons j js ih =>
    intro acc hdisj hnd
    have hnone : tableFind acc j.handle = none := hdisj j (List.mem_cons_self _ _)
    have hstep : deserializeConsoleProcs (j :: js) acc =
        deserializeConsoleProcs js (tableInsert acc j.handle (ConsoleProcess.fromJson j)) :=
      rfl
    have hins : tableInsert acc j.handle (ConsoleProcess.fromJson j) =
        acc ++ [(j.handle, ConsoleProcess.fromJson j)] :=
      tableInsert_of_find_none _ _ _ hnone
    have hnd2 := List.nodup_cons.mp hnd
    have hdisj2 : ∀ j2 ∈ js,
        tableFind (acc ++ [(j.handle, ConsoleProcess.fromJson j)]) j2.handle = none := by
      intro j2 hj2
      have hne : j.handle ≠ j2.handle := by
        intro e
        exact hnd2.1 (e ▸ List.mem_map_of_mem ProcJson.handle hj2)
      rw [tableFind_append_single _ _ _ _ (hdisj j2 (List.mem_cons_of_mem _ hj2))]
      simp [hne]
    rw [hstep, hins, ih _ hdisj2 hnd2.2]
    simp

/-- C8: `deserialize(serialize(table))` (with parsing into an empty
registry) reproduces the registry: the handle list is identical, and
every entry's persisted view — handle identity, `allowRestart`,
`hasChildProcs`, caption, title, exit code, terminal identity, line
limit — is identical (live-process state such as the started flag, and
the embedded buffer with its reconstruction-time dummy newline, are
outside the persisted view). -/
theorem consoleProcs_serialization_roundtrip (t : ProcTable)
    (hwk : wellKeyed t) (hnd : keysNodup t) :
    tableKeys (deserializeConsoleProcs (serializeConsoleProcs t) []) = tableKeys t
    ∧ (deserializeConsoleProcs (serializeConsoleProcs t) []).map
        (fun kv => (kv.1, persistedView kv.2)) =
      t.map (fun kv => (kv.1, persistedView kv.2)) := by
  have hhandles : (serializeConsoleProcs t).map ProcJson.handle = tableKeys t := by
    unfold serializeConsoleProcs tableKeys
    rw [List.map_map]
    exact List.map_congr_left (fun kv hkv => hwk kv hkv)
  have hdisj : ∀ j ∈ serializeConsoleProcs t, tableFind [] j.handle = none :=
    fun _ _ => rfl
  have hnd2 : ((serializeConsoleProcs t).map ProcJson.handle).Nodup := by
    rw [hhandles]; exact hnd
  have hstruct := deserialize_fresh_appends (serializeConsoleProcs t) [] hdisj hnd2
  rw [hstruct]
  simp only [List.nil_append]
  constructor
  · have hcomp :
        (List.map (fun j => (j.handle, ConsoleProcess.fromJson j))
            (serializeConsoleProcs t)).map Prod.fst =
          (serializeConsoleProcs t).map ProcJson.handle := by
      rw [List.map_map]; rfl
    show (List.map (fun j => (j.handle, ConsoleProcess.fromJson j))
        (serializeConsoleProcs t)).map Prod.fst = tableKeys t
    rw [hcomp, hhandles]
  · rw [List.map_map]
    unfold serializeConsoleProcs
    rw [List.map_map]
    refine List.map_congr_left (fun kv hkv => ?_)
    have h1 : ((kv.2.procInfo.toJson).handle : Str) = kv.1 := hwk kv hkv
    have h2 : persistedView (ConsoleProcess.fromJson kv.2.procInfo.toJson) =
        persistedView kv.2 := rfl
    simp only [Function.comp]
    rw [Prod.ext_iff]
    exact ⟨h1, h2⟩

/-- Witness for C8 at the two-session registry. -/
theorem consoleProcs_serialization_roundtrip_witness :
    tableKeys (deserializeConsoleProcs (serializeConsoleProcs sampleTable) []) =
      tableKeys sampleTable
    ∧ (deserializeConsoleProcs (serializeConsoleProcs sampleTable) []).map
        (fun kv => (kv.1, persistedView kv.2)) =
      sampleTable.map (fun kv => (kv.1, persistedView kv.2)) :=
  consoleProcs_serialization_roundtrip sampleTable (by decide) (by decide)

end ConsoleProc
